import Mathlib

/-!
Shallow embedding of the personalized feed ranking engine
(`src/utils/recommendation.ts`, the HomePage duration parser, and the
deep-analysis recommendation variant) together with proofs of the
specification's testable properties.

External modules that the engine imports but that are not part of the
repository snapshot (`utils/xrai.ts` with `extractKeywords` and
`calculateMagnitude`, `utils/api.ts`) are modelled as explicit function
parameters: every theorem quantifies over them, so the results hold for
any implementation of those collaborators.  JavaScript floating-point
values are modelled as exact rationals; `Math.exp`, `Math.sqrt` and
`Math.random` enter the code only through opaque numeric parameters and
are likewise abstracted as quantified functions.  A JavaScript number
that may be `NaN` (the duration parser) is modelled as `Option Int`,
with `none` playing the role of `NaN`.
-/

/-- A fetched video item (`types.ts` `Video`), restricted to the fields the
ranking engine reads: identifier, title, channel identifier, channel name,
machine duration and human duration text. -/
structure Video where
  id : String
  title : String
  channelId : String
  channelName : String
  isoDuration : String
  duration : String
deriving DecidableEq

/-- A channel (`types.ts` `Channel`), restricted to the fields read. -/
structure Channel where
  id : String
  name : String
deriving DecidableEq

/-- A blocked channel entry (`PreferenceContext` `BlockedChannel`); the engine
only reads its identifier. -/
structure BlockedChannel where
  id : String
deriving DecidableEq

/-- A hidden-video entry (`PreferenceContext` `HiddenVideo`); the engine only
reads its identifier. -/
structure HiddenVideo where
  id : String
deriving DecidableEq

/-- One search response (`searchVideos` result), shaped `{videos, shorts}`. -/
structure SearchResult where
  videos : List Video
  shorts : List Video
deriving DecidableEq

/-- The home feed returned by `getXraiRecommendations`. -/
structure HomeFeed where
  videos : List Video
  shorts : List Video
deriving DecidableEq

/-- Character-wise lower casing, modelling JavaScript `toLowerCase()`. -/
def lowerStr (s : String) : String := s.map Char.toLower

/-- Boolean infix test on character lists (model of JavaScript
`String.prototype.includes`). -/
def isInfixB (needle : List Char) : List Char → Bool
  | [] => needle.isEmpty
  | c :: rest => needle.isPrefixOf (c :: rest) || isInfixB needle rest

/-- `strContains hay needle` models `hay.includes(needle)`. -/
def strContains (hay needle : String) : Bool :=
  isInfixB needle.toList hay.toList

/-- Numeric value of a digit string. -/
def digitsVal (ds : List Char) : Nat :=
  ds.foldl (fun n c => 10 * n + (c.toNat - 48)) 0

/-- Leading run of digits, as `Option`: `none` when there is no digit
(the `NaN` outcome of `parseInt`). -/
def digitsOpt (cs : List Char) : Option Nat :=
  let ds := cs.takeWhile Char.isDigit
  if ds.isEmpty then none else some (digitsVal ds)

/-- Model of JavaScript `parseInt(s, 10)` on a character list: skip leading
whitespace, read an optional sign and a leading digit run; `none` models
`NaN`. -/
def jsParseIntL (s : List Char) : Option Int :=
  let cs := s.dropWhile Char.isWhitespace
  match cs with
  | '-' :: rest => (digitsOpt rest).map (fun n => -(n : Int))
  | '+' :: rest => (digitsOpt rest).map (fun n => (n : Int))
  | _ => (digitsOpt cs).map (fun n => (n : Int))

/-- Split a character list at `:` separators (model of `text.split(':')`;
like the JavaScript original it never returns an empty list). -/
def splitCols : List Char → List (List Char)
  | [] => [[]]
  | c :: rest =>
    if c = ':' then [] :: splitCols rest
    else
      match splitCols rest with
      | p :: ps => (c :: p) :: ps
      | [] => [[c]]

/-- Suffix following the first occurrence of the literal `PT`, or `none`
when the string has no `PT` (so the regex
`/PT(?:(\d+)H)?(?:(\d+)M)?(?:(\d+)S)?/` does not match). -/
def findPT : List Char → Option (List Char)
  | [] => none
  | 'P' :: 'T' :: rest => some rest
  | _ :: rest => findPT rest

/-- One optional regex group `(?:(\d+)X)?`: a maximal digit run immediately
followed by the terminator contributes its value and consumes; otherwise the
group contributes `0` (the `parseInt(matches[i] || '0')` default) and
consumes nothing. -/
def parseGroup (term : Char) (cs : List Char) : Nat × List Char :=
  let ds := cs.takeWhile Char.isDigit
  let rest := cs.dropWhile Char.isDigit
  if ds.isEmpty then (0, cs)
  else
    match rest with
    | c :: rest2 => if c = term then (digitsVal ds, rest2) else (0, cs)
    | [] => (0, cs)

/-- The ISO branch of the duration parser: value of
`iso.match(/PT(?:(\d+)H)?(?:(\d+)M)?(?:(\d+)S)?/)` folded into seconds;
`none` when the regex does not match. -/
def parseIso (iso : String) : Option Nat :=
  match findPT iso.toList with
  | none => none
  | some rest =>
    let hr := parseGroup 'H' rest
    let mr := parseGroup 'M' hr.2
    let sr := parseGroup 'S' mr.2
    some (hr.1 * 3600 + mr.1 * 60 + sr.1)

/-- The duration parser of `src/unnamed/part_003` (HomePage helper
`parseDuration`, also the model of the `utils/api.ts` export used by
`isShortVideo`): try the ISO form, then the `H:MM:SS` / `MM:SS` / seconds
text form; `none` models a `NaN` result leaking out of the text branch. -/
def parseDuration (iso text : String) : Option Int :=
  match (if iso = "" then none else parseIso iso) with
  | some n => some (n : Int)
  | none =>
    if text = "" then some 0
    else
      match (splitCols text.toList).map jsParseIntL with
      | [a, b, c] =>
        a.bind (fun x => b.bind (fun y => c.map (fun z => x * 3600 + y * 60 + z)))
      | [a, b] => a.bind (fun x => b.map (fun y => x * 60 + y))
      | [a] => a
      | _ => some 0

/-- `isShortVideo` (`recommendation.ts` line 36): parsed duration in
`(0, 60]` — `NaN` compares false — or a lowercased-title `#shorts` marker. -/
def isShortVideo (v : Video) : Bool :=
  (match parseDuration v.isoDuration v.duration with
   | some n => decide (0 < n) && decide (n ≤ 60)
   | none => false) || strContains (lowerStr v.title) "#shorts"

example : parseDuration "PT1H2M3S" "" = some 3723 := by decide
example : parseDuration "" "2:30" = some 150 := by decide
example : parseDuration "" "" = some 0 := by decide
example : parseDuration "" "abc" = none := by decide

/-- NG-keyword test (`recommendation.ts` lines 62–64 and 256–257): some NG
keyword is a case-insensitive substring of `title + " " + channelName`. -/
def ngHit (ngKeywords : List String) (v : Video) : Bool :=
  ngKeywords.any (fun ng =>
    strContains (lowerStr (v.title ++ " " ++ v.channelName)) (lowerStr ng))

/-- Cumulative negative-keyword penalty over the candidate's extracted
keywords (`recommendation.ts` lines 67–73); `negKW` models the caller's
`negativeKeywords` map with absent keys reading as `0`. -/
def negScoreOf (ek : String → List String) (negKW : String → ℚ) (v : Video) : ℚ :=
  ((ek v.title ++ ek v.channelName).map negKW).sum

/-- The candidate-keeping test of `filterAndDedupe`
(`getXraiRecommendations` lines 58–79): not already seen, no NG-keyword
hit, channel not blocked, negative penalty not above `2`. -/
def fdKeep (ek : String → List String) (negKW : String → ℚ)
    (ngKeywords ngChannelIds seen : List String) (v : Video) : Bool :=
  !seen.contains v.id && !ngHit ngKeywords v
    && !ngChannelIds.contains v.channelId
    && !decide (2 < negScoreOf ek negKW v)

/-- The list returned by `filterAndDedupe` (lines 58–79), with the mutable
`seenIds` set threaded explicitly; every kept identifier joins the set. -/
def filterAndDedupe (ek : String → List String) (negKW : String → ℚ)
    (ngKeywords ngChannelIds : List String) :
    List Video → List String → List Video
  | [], _ => []
  | v :: rest, seen =>
    if fdKeep ek negKW ngKeywords ngChannelIds seen v then
      v :: filterAndDedupe ek negKW ngKeywords ngChannelIds rest (v.id :: seen)
    else
      filterAndDedupe ek negKW ngKeywords ngChannelIds rest seen

/-- The state of the `seenIds` set after a `filterAndDedupe` pass (the
`seenIds.add(v.id)` mutations of lines 58–79). -/
def fdSeen (ek : String → List String) (negKW : String → ℚ)
    (ngKeywords ngChannelIds : List String) :
    List Video → List String → List String
  | [], seen => seen
  | v :: rest, seen =>
    if fdKeep ek negKW ngKeywords ngChannelIds seen v then
      fdSeen ek negKW ngKeywords ngChannelIds rest (v.id :: seen)
    else
      fdSeen ek negKW ngKeywords ngChannelIds rest seen

/-- Inputs of `getXraiRecommendations` that matter after the fetch phase:
user exclusion data plus the (already resolved) trending and per-seed
search responses. -/
structure RecoInput where
  ngKeywords : List String
  ngChannels : List BlockedChannel
  hiddenVideos : List HiddenVideo
  negativeKeywords : String → ℚ
  trendingContent : List Video
  personalizedResults : List SearchResult

/-- The initial seen set (line 55): the hidden-video identifiers. -/
def recoSeen0 (inp : RecoInput) : List String :=
  inp.hiddenVideos.map HiddenVideo.id

/-- The NG-channel identifier set (line 56). -/
def recoNgChannelIds (inp : RecoInput) : List String :=
  inp.ngChannels.map BlockedChannel.id

/-- Long-form trending candidates (lines 102–110). -/
def allTrendingVideosOf (inp : RecoInput) : List Video :=
  inp.trendingContent.filter (fun v => !isShortVideo v)

/-- Short-form trending candidates (lines 102–110). -/
def allTrendingShortsOf (inp : RecoInput) : List Video :=
  inp.trendingContent.filter isShortVideo

/-- All `videos` entries of the per-seed search responses (line 114). -/
def personalizedVideosFromSearchOf (inp : RecoInput) : List Video :=
  inp.personalizedResults.flatMap SearchResult.videos

/-- Long-form personalized candidates (lines 112–121). -/
def allPersonalizedVideosOf (inp : RecoInput) : List Video :=
  (personalizedVideosFromSearchOf inp).filter (fun v => !isShortVideo v)

/-- Short-form personalized candidates (lines 112–121): the search `shorts`
lists, then short-form strays from the search `videos` lists. -/
def allPersonalizedShortsOf (inp : RecoInput) : List Video :=
  inp.personalizedResults.flatMap SearchResult.shorts
    ++ (personalizedVideosFromSearchOf inp).filter isShortVideo

/-- `cleanTrendingVideos` (line 124). -/
def cleanTrendingVideosOf (ek : String → List String) (inp : RecoInput) : List Video :=
  filterAndDedupe ek inp.negativeKeywords inp.ngKeywords (recoNgChannelIds inp)
    (allTrendingVideosOf inp) (recoSeen0 inp)

/-- The seen set after the first `filterAndDedupe` pass. -/
def recoSeen1 (ek : String → List String) (inp : RecoInput) : List String :=
  fdSeen ek inp.negativeKeywords inp.ngKeywords (recoNgChannelIds inp)
    (allTrendingVideosOf inp) (recoSeen0 inp)

/-- `cleanPersonalizedVideos` (line 125), deduplicated against the seen set
left by the first pass. -/
def cleanPersonalizedVideosOf (ek : String → List String) (inp : RecoInput) : List Video :=
  filterAndDedupe ek inp.negativeKeywords inp.ngKeywords (recoNgChannelIds inp)
    (allPersonalizedVideosOf inp) (recoSeen1 ek inp)

/-- The seen set after the second `filterAndDedupe` pass. -/
def recoSeen2 (ek : String → List String) (inp : RecoInput) : List String :=
  fdSeen ek inp.negativeKeywords inp.ngKeywords (recoNgChannelIds inp)
    (allPersonalizedVideosOf inp) (recoSeen1 ek inp)

/-- `cleanTrendingShorts` (line 126). -/
def cleanTrendingShortsOf (ek : String → List String) (inp : RecoInput) : List Video :=
  filterAndDedupe ek inp.negativeKeywords inp.ngKeywords (recoNgChannelIds inp)
    (allTrendingShortsOf inp) (recoSeen2 ek inp)

/-- The seen set after the third `filterAndDedupe` pass. -/
def recoSeen3 (ek : String → List String) (inp : RecoInput) : List String :=
  fdSeen ek inp.negativeKeywords inp.ngKeywords (recoNgChannelIds inp)
    (allTrendingShortsOf inp) (recoSeen2 ek inp)

/-- `cleanPersonalizedShorts` (line 127). -/
def cleanPersonalizedShortsOf (ek : String → List String) (inp : RecoInput) : List Video :=
  filterAndDedupe ek inp.negativeKeywords inp.ngKeywords (recoNgChannelIds inp)
    (allPersonalizedShortsOf inp) (recoSeen3 ek inp)

/-- `TARGET_VIDEOS * TRENDING_VIDEO_RATIO` floored (line 130): `⌊50·0.40⌋`. -/
def numTrending : ℕ := ⌊(50 : ℚ) * (2 / 5)⌋.toNat

/-- `TARGET_VIDEOS - numTrending` (line 131). -/
def numPersonalized : ℕ := 50 - numTrending

/-- The mixing phase of `getXraiRecommendations` (lines 129–144): each
`shuffleArray` call site is an explicit function parameter (`shA`–`shF`),
constrained to permutations in the theorems. -/
def getXraiRecommendationsCore (ek : String → List String)
    (shA shB shC shD shE shF : List Video → List Video)
    (inp : RecoInput) : HomeFeed :=
  ⟨shC ((shA (cleanTrendingVideosOf ek inp)).take numTrending
      ++ (shB (cleanPersonalizedVideosOf ek inp)).take numPersonalized),
   (shF (shD (cleanTrendingShortsOf ek inp) ++ shE (cleanPersonalizedShortsOf ek inp))).take 20⟩

/-- Result recovery for one fetch (`promise.catch(() => d)`). -/
def recover {α : Type} (r : Except String α) (d : α) : α :=
  match r with
  | Except.ok a => a
  | Except.error _ => d

/-- `getXraiRecommendations` with its fetch outcomes made explicit: each
upstream result is an `Except` and every failure is recovered to an empty
pool before the core pipeline runs; the operation itself always resolves. -/
def getXraiRecommendationsRun (ek : String → List String)
    (shA shB shC shD shE shF : List Video → List Video)
    (ngKeywords : List String) (ngChannels : List BlockedChannel)
    (hiddenVideos : List HiddenVideo) (negKW : String → ℚ)
    (trendingRes : Except String (List Video))
    (searchRes : List (Except String SearchResult)) : Except String HomeFeed :=
  let trendingContent := recover trendingRes []
  let personalizedResults := searchRes.map (fun r => recover r ⟨[], []⟩)
  Except.ok (getXraiRecommendationsCore ek shA shB shC shD shE shF
    ⟨ngKeywords, ngChannels, hiddenVideos, negKW, trendingContent, personalizedResults⟩)

/-- `addWeight` of `getXraiShorts` (lines 163–165): every extracted keyword
of `text` gains `w`, one increment per occurrence.  The term-weight vector
is represented extensionally as `String → ℚ` with absent keys reading `0`. -/
def addWeight (ek : String → List String) (m : String → ℚ) (text : String)
    (w : ℚ) : String → ℚ :=
  (ek text).foldl (fun acc k => fun t => if t = k then acc t + w else acc t) m

/-- Profile stage 1 (line 169): subscribed channel names, weight `5.0`. -/
def buildStage1 (ek : String → List String) (subs : List Channel) : String → ℚ :=
  subs.foldl (fun m c => addWeight ek m c.name 5) (fun _ => 0)

/-- Profile stage 2 (lines 173–177): the first 30 shorts-history entries;
entry at index `i` contributes title weight `3·dec i` and channel-name
weight `4·dec i`, where `dec` models `Math.exp (-i / 10)`. -/
def buildStage2 (ek : String → List String) (dec : ℕ → ℚ)
    (shortsHistory : List Video) (m0 : String → ℚ) : String → ℚ :=
  (shortsHistory.take 30).enum.foldl
    (fun m p => addWeight ek (addWeight ek m p.2.title (3 * dec p.1)) p.2.channelName (4 * dec p.1))
    m0

/-- Profile stage 3 (lines 180–184): the first 20 watch-history entries;
entry at index `i` contributes title weight `1.5·dec i` and channel-name
weight `2·dec i`. -/
def buildStage3 (ek : String → List String) (dec : ℕ → ℚ)
    (watchHistory : List Video) (m0 : String → ℚ) : String → ℚ :=
  (watchHistory.take 20).enum.foldl
    (fun m p => addWeight ek (addWeight ek m p.2.title (3 / 2 * dec p.1)) p.2.channelName (2 * dec p.1))
    m0

/-- The user term-weight vector of `getXraiShorts` (lines 160–184). -/
def buildUserVector (ek : String → List String) (dec : ℕ → ℚ)
    (subs : List Channel) (shortsHistory watchHistory : List Video) : String → ℚ :=
  buildStage3 ek dec watchHistory (buildStage2 ek dec shortsHistory (buildStage1 ek subs))

/-- `scoreVideo` of `getXraiShorts` (lines 214–248).  `sqrtF` models
`Math.sqrt` applied to the keyword count, `rand` models the `Math.random()`
draw of this call (the code adds `rand * 15`). -/
def scoreVideo (ek : String → List String) (userVector : String → ℚ)
    (userMag : ℚ) (subs : List Channel) (negKW : String → ℚ)
    (sqrtF : ℕ → ℚ) (rand : ℚ) (v : Video) : ℚ :=
  let vKeywords := ek v.title ++ ek v.channelName
  let dotProduct := (vKeywords.map userVector).sum
  let contentMatch :=
    if 0 < userMag ∧ 0 < vKeywords.length then
      dotProduct / (userMag * sqrtF vKeywords.length) * 100
    else 0
  let affinity : ℚ := if subs.any (fun c => c.id == v.channelId) then 50 else 0
  let negS := (vKeywords.map negKW).sum
  contentMatch + affinity - negS * 20 + rand * 15

/-- The hard-filter/dedupe loop of `getXraiShorts` (lines 250–263): drop
seen, NG-channel and NG-keyword candidates, then keep the first occurrence
of each identifier (`uniqueCandidates` insertion order). -/
def hardFilterDedupe (ngKeywords : List String) (ngChannelIds allSeenIds : List String) :
    List Video → List String → List Video
  | [], _ => []
  | v :: rest, ids =>
    if allSeenIds.contains v.id then
      hardFilterDedupe ngKeywords ngChannelIds allSeenIds rest ids
    else if ngChannelIds.contains v.channelId then
      hardFilterDedupe ngKeywords ngChannelIds allSeenIds rest ids
    else if ngHit ngKeywords v then
      hardFilterDedupe ngKeywords ngChannelIds allSeenIds rest ids
    else if ids.contains v.id then
      hardFilterDedupe ngKeywords ngChannelIds allSeenIds rest ids
    else
      v :: hardFilterDedupe ngKeywords ngChannelIds allSeenIds rest (v.id :: ids)

/-- Insertion of one scored candidate into a score-descending list. -/
def insertDesc (p : Video × ℚ) : List (Video × ℚ) → List (Video × ℚ)
  | [] => [p]
  | q :: rest => if q.2 < p.2 then p :: q :: rest else q :: insertDesc p rest

/-- `scoredCandidates.sort((a, b) => b.score - a.score)` (line 271):
sorting by score, descending. -/
def sortByScoreDesc : List (Video × ℚ) → List (Video × ℚ)
  | [] => []
  | p :: rest => insertDesc p (sortByScoreDesc rest)

/-- The Diversity Enforcer of `getXraiShorts` (lines 275–293): walk the
score-sorted list, drop scores below `-50`, admit a candidate only when its
channel's cooldown is `0`, then reset that channel's cooldown to `3` and
decrement every other positive cooldown.  The cooldown map is represented
extensionally as `String → ℕ` with absent keys reading `0`. -/
def diversityEnforce (cooldown : String → ℕ) : List (Video × ℚ) → List Video
  | [] => []
  | p :: rest =>
    if p.2 < -50 then diversityEnforce cooldown rest
    else if cooldown p.1.channelId = 0 then
      p.1 :: diversityEnforce
        (fun c => if c = p.1.channelId then 3 else cooldown c - 1) rest
    else diversityEnforce cooldown rest

/-- The backfill append loop (lines 298–305): push each fallback whose
identifier is not yet present, tracking `existingIds`. -/
def backfillGo (acc : List Video) (ids : List String) : List Video → List Video
  | [] => acc
  | fb :: rest =>
    if ids.contains fb.id then backfillGo acc ids rest
    else backfillGo (acc ++ [fb]) (fb.id :: ids) rest

/-- Inputs of `getXraiShorts` that matter after the fetch phase: the user
signal lists, exclusion data, the extra `seenIds` parameter, and the
(already resolved) trending and per-seed search responses. -/
structure ShortsInput where
  watchHistory : List Video
  shortsHistory : List Video
  subscribedChannels : List Channel
  hiddenVideos : List HiddenVideo
  ngChannels : List BlockedChannel
  ngKeywords : List String
  seenIds : List String
  negativeKeywords : String → ℚ
  trendingVideos : List Video
  searchResults : List SearchResult

/-- `popularShortsRaw` (line 190): the trending response pre-filtered
through `isShortVideo`. -/
def shortsPopularRaw (inp : ShortsInput) : List Video :=
  inp.trendingVideos.filter isShortVideo

/-- `allSeenIds` (lines 206–210): shorts-history identifiers, hidden-video
identifiers, then the extra `seenIds` parameter. -/
def shortsAllSeenIds (inp : ShortsInput) : List String :=
  inp.shortsHistory.map Video.id ++ inp.hiddenVideos.map HiddenVideo.id ++ inp.seenIds

/-- The candidate pool (lines 198–203): trending shorts first, then every
search response's `videos ++ shorts` pre-filtered through `isShortVideo`. -/
def shortsCandidates (inp : ShortsInput) : List Video :=
  shortsPopularRaw inp
    ++ inp.searchResults.flatMap (fun r => (r.videos ++ r.shorts).filter isShortVideo)

/-- The diversity-admitted feed of `getXraiShorts` before backfill
(lines 250–293): hard filters, per-candidate scoring (`noiseF v` is the
`Math.random()` draw for candidate `v`), descending sort, then the
Diversity Enforcer starting from an all-zero cooldown map. -/
def shortsAdmitted (ek : String → List String) (dec : ℕ → ℚ)
    (magF : (String → ℚ) → ℚ) (sqrtF : ℕ → ℚ) (noiseF : Video → ℚ)
    (inp : ShortsInput) : List Video :=
  let userVector := buildUserVector ek dec inp.subscribedChannels inp.shortsHistory inp.watchHistory
  let userMag := magF userVector
  let uniqueCandidates :=
    hardFilterDedupe inp.ngKeywords (inp.ngChannels.map BlockedChannel.id)
      (shortsAllSeenIds inp) (shortsCandidates inp) []
  let scored := uniqueCandidates.map (fun v =>
    (v, scoreVideo ek userVector userMag inp.subscribedChannels
          inp.negativeKeywords sqrtF (noiseF v) v))
  diversityEnforce (fun _ => 0) (sortByScoreDesc scored)

/-- `getXraiShorts` after the fetch phase (lines 148–309): the admitted
feed, backfilled from the raw trending shorts pool when it has fewer than
5 items and that pool is non-empty.  `magF` models `calculateMagnitude`
from the absent `utils/xrai.ts` (the spec: Euclidean norm of the vector),
`dec` models `Math.exp (-i / 10)`, `sqrtF` models `Math.sqrt`, and `noiseF`
the per-candidate `Math.random()` draws. -/
def getXraiShortsCore (ek : String → List String) (dec : ℕ → ℚ)
    (magF : (String → ℚ) → ℚ) (sqrtF : ℕ → ℚ) (noiseF : Video → ℚ)
    (inp : ShortsInput) : List Video :=
  let finalFeed := shortsAdmitted ek dec magF sqrtF noiseF inp
  let popularShortsRaw := shortsPopularRaw inp
  if finalFeed.length < 5 ∧ 0 < popularShortsRaw.length then
    let fallbacks :=
      (popularShortsRaw.filter (fun v => !(shortsAllSeenIds inp).contains v.id)).take 10
    backfillGo finalFeed (finalFeed.map Video.id) fallbacks
  else finalFeed

/-- `NOISE_BLOCK_KEYWORDS` of `src/unnamed/part_001` (lines 7–13). -/
def noiseBlockKeywords : List String :=
  ["ニュース", "News", "報道", "政治", "首相", "大統領", "内閣",
   "事件", "事故", "逮捕", "裁判", "速報", "会見", "訃報", "地震",
   "津波", "災害", "炎上", "物申す", "批判", "晒し", "閲覧注意",
   "衆院選", "参院選", "選挙", "与党", "野党", "政策",
   "NHK", "日テレ", "FNN", "TBS", "ANN", "テレ東"]

/-- `isValidRecommendation` of `part_001` (lines 55–89): brand filter with
the one allow-listed channel, noise/news filter, user NG keywords and NG
channels.  The Japanese-language branch is commented out in the source and
therefore has no effect here either. -/
def isValidRecommendation (ngKeywords ngChannels : List String) (v : Video) : Bool :=
  let fullText := lowerStr v.title ++ " " ++ lowerStr v.channelName
  if strContains fullText "xerox" && v.channelId != "UCCMV3NfZk_NB-MmUvHj6aFw" then false
  else if noiseBlockKeywords.any (fun w => strContains fullText (lowerStr w)) then false
  else if ngKeywords.any (fun ng => strContains fullText (lowerStr ng)) then false
  else if ngChannels.contains v.channelId then false
  else true

/-- The filter/dedupe loop of `getDeeplyAnalyzedRecommendations`
(`part_001` lines 199–219): skip falsy identifiers, duplicates, the ten
most recent history identifiers, and invalid candidates. -/
def deepDedupe (ngKeywords ngChannels recentIds : List String) :
    List Video → List String → List Video
  | [], _ => []
  | v :: rest, seen =>
    if v.id = "" then deepDedupe ngKeywords ngChannels recentIds rest seen
    else if seen.contains v.id then deepDedupe ngKeywords ngChannels recentIds rest seen
    else if recentIds.contains v.id then deepDedupe ngKeywords ngChannels recentIds rest seen
    else if isValidRecommendation ngKeywords ngChannels v then
      v :: deepDedupe ngKeywords ngChannels recentIds rest (v.id :: seen)
    else deepDedupe ngKeywords ngChannels recentIds rest seen

/-- `getDeeplyAnalyzedRecommendations` (`part_001` lines 97–222) with its
fetch outcomes made explicit: every strategy promise carries
`.catch(() => [])`, so each failed source is recovered to an empty list;
the aggregated candidates are shuffled (`sh`, a call-site parameter) and
run through the filter/dedupe loop; the operation always resolves. -/
def getDeeplyAnalyzedRecommendationsRun (sh : List Video → List Video)
    (watchHistory : List Video) (ngKeywords ngChannels : List String)
    (results : List (Except String (List Video))) : Except String (List Video) :=
  let candidates := (results.map (fun r => recover r [])).flatten
  let recentHistoryIds := (watchHistory.take 10).map Video.id
  Except.ok (deepDedupe ngKeywords ngChannels recentHistoryIds (sh candidates) [])

/-- A feed has pairwise distinct video identifiers. -/
def idsNodup (l : List Video) : Prop := (l.map Video.id).Nodup

/-- Text-form inputs on which the duration parser's text branch cannot
produce `NaN` or a negative value: empty, or one-to-three all-digit
colon-separated tokens, or four or more tokens (the unhandled fall-through
that returns `0`). -/
def textSafe (text : String) : Prop :=
  text = "" ∨ 4 ≤ (splitCols text.toList).length ∨
    ∀ p ∈ splitCols text.toList, p ≠ [] ∧ ∀ c ∈ p, c.isDigit = true

/-- Trivial keyword extractor used to instantiate witnesses. -/
def ek0 : String → List String := fun _ => []

/-- Zero recency-decay function for witnesses. -/
def dec0 : ℕ → ℚ := fun _ => 0

/-- Zero magnitude function for witnesses. -/
def mag0 : (String → ℚ) → ℚ := fun _ => 0

/-- Zero square-root model for witnesses. -/
def sqrt0 : ℕ → ℚ := fun _ => 0

/-- Zero noise draws for witnesses. -/
def noise0 : Video → ℚ := fun _ => 0

/-- Empty negative-keyword table for witnesses. -/
def negKW0 : String → ℚ := fun _ => 0

/-- A trending short whose title contains the NG keyword `"bad"`. -/
def badVid : Video := ⟨"v-bad", "bad #shorts", "ch1", "Channel One", "", ""⟩

/-- Shorts input for the C1 counterexample: NG keyword `"bad"`, one
NG-matching trending short, every other signal empty. -/
def c1Input : ShortsInput :=
  ⟨[], [], [], [], [], ["bad"], [], negKW0, [badVid], []⟩

/-- Six distinct trending shorts all from the blocked channel `"X"`. -/
def c8Trending : List Video :=
  [⟨"b1", "#shorts", "X", "c", "", ""⟩, ⟨"b2", "#shorts", "X", "c", "", ""⟩,
   ⟨"b3", "#shorts", "X", "c", "", ""⟩, ⟨"b4", "#shorts", "X", "c", "", ""⟩,
   ⟨"b5", "#shorts", "X", "c", "", ""⟩, ⟨"b6", "#shorts", "X", "c", "", ""⟩]

/-- Shorts input for the C8 counterexample: channel `"X"` is blocked, so no
candidate is admitted, yet six trending shorts are available to backfill. -/
def c8Input : ShortsInput :=
  ⟨[], [], [], [], [⟨"X"⟩], [], [], negKW0, c8Trending, []⟩

/-- An unobjectionable trending short used by several witnesses. -/
def plainShort : Video := ⟨"s1", "fun #shorts", "chS", "Shorts Channel", "", ""⟩

/-- Shorts input with a single plain trending short and no exclusions. -/
def plainShortsInput : ShortsInput :=
  ⟨[], [], [], [], [], [], [], negKW0, [plainShort], []⟩

/-- A video hidden by the C2 witness scenarios. -/
def hiddenVid : Video := ⟨"h1", "hidden #shorts", "chH", "H Channel", "", ""⟩

/-- Shorts input whose only trending short is also in `hiddenVideos`. -/
def c2Input : ShortsInput :=
  ⟨[], [], [], [⟨"h1"⟩], [], [], [], negKW0, [hiddenVid], []⟩

/-- Reco input matching `c2Input`: the hidden video is the only candidate. -/
def c2RecoInput : RecoInput :=
  ⟨[], [], [⟨"h1"⟩], negKW0, [hiddenVid], []⟩

/-- A long-form witness video with identifier `pre ++ i`: blank durations
parse to `0` seconds and the title has no `#shorts` marker. -/
def c5Vid (pre : String) (i : ℕ) : Video :=
  ⟨pre ++ toString i, "t", "c" ++ pre ++ toString i, "n", "", ""⟩

/-- Fifty distinct long-form trending candidates. -/
def c5Trending : List Video := (List.range 50).map (c5Vid "t")

/-- Seventy-five distinct long-form personalized candidates. -/
def c5Personalized : List Video := (List.range 75).map (c5Vid "p")

/-- Reco input for the C5 witness: 50 surviving long-form trending and 75
surviving long-form personalized candidates, no exclusions. -/
def c5Input : RecoInput :=
  ⟨[], [], [], negKW0, c5Trending, [⟨c5Personalized, []⟩]⟩

/-- Five scored candidates whose channels force a same-channel pair exactly
four admitted positions apart (channels A, B, C, D, A). -/
def c3Items : List (Video × ℚ) :=
  [(⟨"i1", "t", "A", "n", "", ""⟩, 0), (⟨"i2", "t", "B", "n", "", ""⟩, 0),
   (⟨"i3", "t", "C", "n", "", ""⟩, 0), (⟨"i4", "t", "D", "n", "", ""⟩, 0),
   (⟨"i5", "t", "A", "n", "", ""⟩, 0)]

/-! ### Generic list lemmas -/

theorem contains_true_iff (l : List String) (x : String) :
    l.contains x = true ↔ x ∈ l := by
  simp [List.contains]

theorem contains_false_iff (l : List String) (x : String) :
    l.contains x = false ↔ x ∉ l := by
  simp [List.contains]

theorem insertDesc_perm (p : Video × ℚ) (l : List (Video × ℚ)) :
    (insertDesc p l).Perm (p :: l) := by
  induction l with
  | nil => simp [insertDesc]
  | cons q rest ih =>
    simp only [insertDesc]
    split
    · exact List.Perm.refl _
    · exact List.Perm.trans (List.Perm.cons q ih) (List.Perm.swap p q rest)

theorem sortByScoreDesc_perm (l : List (Video × ℚ)) :
    (sortByScoreDesc l).Perm l := by
  induction l with
  | nil => exact List.Perm.refl _
  | cons p rest ih =>
    exact List.Perm.trans (insertDesc_perm p (sortByScoreDesc rest)) (List.Perm.cons p ih)

/-! ### `filterAndDedupe` lemmas -/

theorem fdKeep_spec (ek : String → List String) (negKW : String → ℚ)
    (ngK ngC seen : List String) (v : Video) :
    fdKeep ek negKW ngK ngC seen v = true ↔
      v.id ∉ seen ∧ ngHit ngK v = false ∧ v.channelId ∉ ngC
        ∧ negScoreOf ek negKW v ≤ 2 := by
  simp [fdKeep, List.contains, not_lt, and_assoc]

theorem fd_mem (ek : String → List String) (negKW : String → ℚ)
    (ngK ngC : List String) :
    ∀ (l : List Video) (seen : List String) (v : Video),
      v ∈ filterAndDedupe ek negKW ngK ngC l seen →
      v ∈ l ∧ v.id ∉ seen ∧ ngHit ngK v = false ∧ v.channelId ∉ ngC
        ∧ negScoreOf ek negKW v ≤ 2 := by
  intro l
  induction l with
  | nil => intro seen v h; simp [filterAndDedupe] at h
  | cons w rest ih =>
    intro seen v h
    by_cases hk : fdKeep ek negKW ngK ngC seen w = true
    · simp only [filterAndDedupe, if_pos hk] at h
      rcases List.mem_cons.mp h with h1 | h2
      · subst h1
        rcases (fdKeep_spec ek negKW ngK ngC seen v).mp hk with ⟨a, b, c, d⟩
        exact ⟨List.mem_cons_self v rest, a, b, c, d⟩
      · rcases ih (w.id :: seen) v h2 with ⟨a, b, c, d, e⟩
        exact ⟨List.mem_cons_of_mem w a,
          fun hx => b (List.mem_cons_of_mem _ hx), c, d, e⟩
    · simp only [filterAndDedupe, if_neg hk] at h
      rcases ih seen v h with ⟨a, b, c, d, e⟩
      exact ⟨List.mem_cons_of_mem w a, b, c, d, e⟩

theorem fdSeen_mono (ek : String → List String) (negKW : String → ℚ)
    (ngK ngC : List String) :
    ∀ (l : List Video) (seen : List String) (x : String),
      x ∈ seen → x ∈ fdSeen ek negKW ngK ngC l seen := by
  intro l
  induction l with
  | nil => intro seen x hx; simpa [fdSeen] using hx
  | cons w rest ih =>
    intro seen x hx
    by_cases hk : fdKeep ek negKW ngK ngC seen w = true
    · simp only [fdSeen, if_pos hk]
      exact ih _ _ (List.mem_cons_of_mem _ hx)
    · simp only [fdSeen, if_neg hk]
      exact ih _ _ hx

theorem fd_out_seen (ek : String → List String) (negKW : String → ℚ)
    (ngK ngC : List String) :
    ∀ (l : List Video) (seen : List String) (v : Video),
      v ∈ filterAndDedupe ek negKW ngK ngC l seen →
      v.id ∈ fdSeen ek negKW ngK ngC l seen := by
  intro l
  induction l with
  | nil => intro seen v h; simp [filterAndDedupe] at h
  | cons w rest ih =>
    intro seen v h
    by_cases hk : fdKeep ek negKW ngK ngC seen w = true
    · simp only [filterAndDedupe, if_pos hk] at h
      simp only [fdSeen, if_pos hk]
      rcases List.mem_cons.mp h with h1 | h2
      · subst h1
        exact fdSeen_mono ek negKW ngK ngC rest _ _ (List.mem_cons_self _ _)
      · exact ih _ _ h2
    · simp only [filterAndDedupe, if_neg hk] at h
      simp only [fdSeen, if_neg hk]
      exact ih _ _ h

/-! ### `hardFilterDedupe` lemmas -/

theorem hfd_mem (ngK ngC seenIds : List String) :
    ∀ (l : List Video) (ids : List String) (v : Video),
      v ∈ hardFilterDedupe ngK ngC seenIds l ids →
      v ∈ l ∧ v.id ∉ seenIds ∧ v.channelId ∉ ngC ∧ ngHit ngK v = false
        ∧ v.id ∉ ids := by
  intro l
  induction l with
  | nil => intro ids v h; simp [hardFilterDedupe] at h
  | cons w rest ih =>
    intro ids v h
    simp only [hardFilterDedupe] at h
    split at h
    · rcases ih ids v h with ⟨a, b, c, d, e⟩
      exact ⟨List.mem_cons_of_mem w a, b, c, d, e⟩
    · split at h
      · rcases ih ids v h with ⟨a, b, c, d, e⟩
        exact ⟨List.mem_cons_of_mem w a, b, c, d, e⟩
      · split at h
        · rcases ih ids v h with ⟨a, b, c, d, e⟩
          exact ⟨List.mem_cons_of_mem w a, b, c, d, e⟩
        · split at h
          · rcases ih ids v h with ⟨a, b, c, d, e⟩
            exact ⟨List.mem_cons_of_mem w a, b, c, d, e⟩
          · rcases List.mem_cons.mp h with h1 | h2
            · subst h1
              rename_i hseen hng hkw hids
              refine ⟨List.mem_cons_self v rest, ?_, ?_, ?_, ?_⟩
              · exact (contains_false_iff _ _).mp (Bool.not_eq_true _ ▸ Bool.of_not_eq_true hseen)
              · exact (contains_false_iff _ _).mp (Bool.of_not_eq_true hng)
              · exact Bool.of_not_eq_true hkw
              · exact (contains_false_iff _ _).mp (Bool.of_not_eq_true hids)
            · rcases ih (w.id :: ids) v h2 with ⟨a, b, c, d, e⟩
              exact ⟨List.mem_cons_of_mem w a, b, c, d,
                fun hx => e (List.mem_cons_of_mem _ hx)⟩

/-! ### Diversity Enforcer lemmas -/

theorem diversityEnforce_sublist (cooldown : String → ℕ) (l : List (Video × ℚ)) :
    (diversityEnforce cooldown l).Sublist (l.map Prod.fst) := by
  induction l generalizing cooldown with
  | nil => simp [diversityEnforce]
  | cons p rest ih =>
    simp only [diversityEnforce, List.map_cons]
    split
    · exact List.Sublist.cons p.1 (ih cooldown)
    · split
      · exact List.Sublist.cons₂ p.1 (ih _)
      · exact List.Sublist.cons p.1 (ih cooldown)

theorem dE_cooldown_clear (l : List (Video × ℚ)) :
    ∀ (cooldown : String → ℕ) (ch : String) (i : ℕ) (v : Video),
      i < cooldown ch → (diversityEnforce cooldown l)[i]? = some v →
      v.channelId ≠ ch := by
  induction l with
  | nil => intro cooldown ch i v hlt hv; simp [diversityEnforce] at hv
  | cons p rest ih =>
    intro cooldown ch i v hlt hv
    by_cases h1 : p.2 < -50
    · rw [show diversityEnforce cooldown (p :: rest) = diversityEnforce cooldown rest
          from by simp [diversityEnforce, h1]] at hv
      exact ih cooldown ch i v hlt hv
    · by_cases h2 : cooldown p.1.channelId = 0
      · rw [show diversityEnforce cooldown (p :: rest)
              = p.1 :: diversityEnforce
                  (fun c => if c = p.1.channelId then 3 else cooldown c - 1) rest
            from by simp [diversityEnforce, h1, h2]] at hv
        cases i with
        | zero =>
          rw [List.getElem?_cons_zero] at hv
          obtain rfl := Option.some.inj hv
          intro hcontra
          rw [← hcontra] at hlt
          omega
        | succ n =>
          rw [List.getElem?_cons_succ] at hv
          have hne : ch ≠ p.1.channelId := by
            intro he; rw [he] at hlt; omega
          refine ih _ ch n v ?_ hv
          rw [if_neg hne]
          omega
      · rw [show diversityEnforce cooldown (p :: rest) = diversityEnforce cooldown rest
            from by simp [diversityEnforce, h1, h2]] at hv
        exact ih cooldown ch i v hlt hv

theorem dE_separation (l : List (Video × ℚ)) :
    ∀ (cooldown : String → ℕ) (i j : ℕ) (u v : Video),
      i < j → (diversityEnforce cooldown l)[i]? = some u →
      (diversityEnforce cooldown l)[j]? = some v →
      u.channelId = v.channelId → i + 4 ≤ j := by
  induction l with
  | nil => intro cooldown i j u v hij hu hv hch; simp [diversityEnforce] at hu
  | cons p rest ih =>
    intro cooldown i j u v hij hu hv hch
    by_cases h1 : p.2 < -50
    · rw [show diversityEnforce cooldown (p :: rest) = diversityEnforce cooldown rest
          from by simp [diversityEnforce, h1]] at hu hv
      exact ih cooldown i j u v hij hu hv hch
    · by_cases h2 : cooldown p.1.channelId = 0
      · rw [show diversityEnforce cooldown (p :: rest)
              = p.1 :: diversityEnforce
                  (fun c => if c = p.1.channelId then 3 else cooldown c - 1) rest
            from by simp [diversityEnforce, h1, h2]] at hu hv
        cases i with
        | zero =>
          rw [List.getElem?_cons_zero] at hu
          obtain rfl := Option.some.inj hu
          obtain ⟨m, rfl⟩ := Nat.exists_eq_succ_of_ne_zero (Nat.pos_iff_ne_zero.mp hij)
          rw [List.getElem?_cons_succ] at hv
          by_contra hcon
          have hm3 : m < 3 := by omega
          exact dE_cooldown_clear rest _ p.1.channelId m v
            (show m < (fun c => if c = p.1.channelId then 3 else cooldown c - 1) p.1.channelId
              from by simp [hm3]) hv hch.symm
        | succ n =>
          obtain ⟨m, rfl⟩ := Nat.exists_eq_succ_of_ne_zero
            (Nat.pos_iff_ne_zero.mp (Nat.lt_of_le_of_lt (Nat.zero_le _) hij))
          rw [List.getElem?_cons_succ] at hu hv
          have := ih _ n m u v (Nat.succ_lt_succ_iff.mp hij) hu hv hch
          omega
      · rw [show diversityEnforce cooldown (p :: rest) = diversityEnforce cooldown rest
            from by simp [diversityEnforce, h1, h2]] at hu hv
        exact ih cooldown i j u v hij hu hv hch

/-! ### Backfill lemmas -/

theorem backfillGo_mem :
    ∀ (fbs acc : List Video) (ids : List String) (v : Video),
      v ∈ backfillGo acc ids fbs → v ∈ acc ∨ v ∈ fbs := by
  intro fbs
  induction fbs with
  | nil => intro acc ids v h; exact Or.inl (by simpa [backfillGo] using h)
  | cons fb rest ih =>
    intro acc ids v h
    by_cases hc : ids.contains fb.id = true
    · simp only [backfillGo, hc, if_true] at h
      rcases ih acc ids v h with h1 | h2
      · exact Or.inl h1
      · exact Or.inr (List.mem_cons_of_mem fb h2)
    · simp only [backfillGo, Bool.of_not_eq_true hc, if_false] at h
      rcases ih (acc ++ [fb]) (fb.id :: ids) v h with h1 | h2
      · rcases List.mem_append.mp h1 with ha | hb
        · exact Or.inl ha
        · exact Or.inr (by rw [List.mem_singleton.mp hb]; exact List.mem_cons_self fb rest)
      · exact Or.inr (List.mem_cons_of_mem fb h2)

theorem backfillGo_spec :
    ∀ (fbs acc : List Video) (ids : List String),
      (∀ x ∈ acc, x.id ∈ ids) → (acc.map Video.id).Nodup →
      ∃ extra, backfillGo acc ids fbs = acc ++ extra
        ∧ (∀ v ∈ extra, v ∈ fbs)
        ∧ ((acc ++ extra).map Video.id).Nodup
        ∧ extra.length ≤ fbs.length := by
  intro fbs
  induction fbs with
  | nil =>
    intro acc ids h1 h2
    exact ⟨[], by simp [backfillGo], by simp, by simpa using h2, by simp⟩
  | cons fb rest ih =>
    intro acc ids h1 h2
    by_cases hc : ids.contains fb.id = true
    · obtain ⟨extra, he, hm, hn, hl⟩ := ih acc ids h1 h2
      refine ⟨extra, ?_, fun v hv => List.mem_cons_of_mem fb (hm v hv), hn, ?_⟩
      · simp only [backfillGo, hc, if_true]; exact he
      · simp only [List.length_cons]; omega
    · have hfbid : fb.id ∉ ids := by
        have := Bool.of_not_eq_true hc
        exact (contains_false_iff ids fb.id).mp this
      have hpre : ∀ x ∈ acc ++ [fb], x.id ∈ fb.id :: ids := by
        intro x hx
        rcases List.mem_append.mp hx with ha | hb
        · exact List.mem_cons_of_mem _ (h1 x ha)
        · rw [List.mem_singleton.mp hb]; exact List.mem_cons_self _ _
      have hnd : ((acc ++ [fb]).map Video.id).Nodup := by
        rw [List.map_append, List.nodup_append]
        refine ⟨h2, by simp, ?_⟩
        intro x hx hx2
        rcases List.mem_map.mp hx with ⟨a, ha, rfl⟩
        have : a.id ∈ ids := h1 a ha
        simp only [List.map_cons, List.map_nil, List.mem_singleton] at hx2
        rw [hx2] at this
        exact hfbid this
      obtain ⟨extra, he, hm, hn, hl⟩ := ih (acc ++ [fb]) (fb.id :: ids) hpre hnd
      refine ⟨fb :: extra, ?_, ?_, ?_, ?_⟩
      · simp only [backfillGo, Bool.of_not_eq_true hc, if_false]
        rw [he, List.append_assoc]
        rfl
      · intro v hv
        rcases List.mem_cons.mp hv with h9 | h9
        · rw [h9]; exact List.mem_cons_self _ _
        · exact List.mem_cons_of_mem fb (hm v h9)
      · rw [show acc ++ fb :: extra = (acc ++ [fb]) ++ extra from by
            rw [List.append_assoc]; rfl]
        exact hn
      · simp only [List.length_cons]; omega

/-! ### `hardFilterDedupe` uniqueness and shorts-pipeline membership -/

theorem hfd_nodup (ngK ngC seenIds : List String) :
    ∀ (l : List Video) (ids : List String),
      ((hardFilterDedupe ngK ngC seenIds l ids).map Video.id).Nodup := by
  intro l
  induction l with
  | nil => intro ids; simp [hardFilterDedupe]
  | cons w rest ih =>
    intro ids
    simp only [hardFilterDedupe]
    split
    · exact ih ids
    · split
      · exact ih ids
      · split
        · exact ih ids
        · split
          · exact ih ids
          · rw [List.map_cons, List.nodup_cons]
            refine ⟨?_, ih (w.id :: ids)⟩
            intro hmem
            rcases List.mem_map.mp hmem with ⟨u, hu, hid⟩
            have := (hfd_mem ngK ngC seenIds rest (w.id :: ids) u hu).2.2.2.2
            rw [hid] at this
            exact this (List.mem_cons_self _ _)

theorem shortsAdmitted_mem (ek : String → List String) (dec : ℕ → ℚ)
    (magF : (String → ℚ) → ℚ) (sqrtF : ℕ → ℚ) (noiseF : Video → ℚ)
    (inp : ShortsInput) (v : Video)
    (h : v ∈ shortsAdmitted ek dec magF sqrtF noiseF inp) :
    v ∈ hardFilterDedupe inp.ngKeywords (inp.ngChannels.map BlockedChannel.id)
        (shortsAllSeenIds inp) (shortsCandidates inp) [] := by
  simp only [shortsAdmitted] at h
  have h1 := (diversityEnforce_sublist _ _).subset h
  have h2 := ((sortByScoreDesc_perm _).map Prod.fst).mem_iff.mp h1
  simpa using h2

theorem shortsCandidates_short (inp : ShortsInput) (v : Video)
    (h : v ∈ shortsCandidates inp) : isShortVideo v = true := by
  rcases List.mem_append.mp h with h1 | h2
  · exact (List.mem_filter.mp h1).2
  · rcases List.mem_flatMap.mp h2 with ⟨r, _, hv⟩
    exact (List.mem_filter.mp hv).2

theorem shortsCore_mem (ek : String → List String) (dec : ℕ → ℚ)
    (magF : (String → ℚ) → ℚ) (sqrtF : ℕ → ℚ) (noiseF : Video → ℚ)
    (inp : ShortsInput) (v : Video)
    (h : v ∈ getXraiShortsCore ek dec magF sqrtF noiseF inp) :
    v ∈ shortsAdmitted ek dec magF sqrtF noiseF inp
      ∨ (v ∈ shortsPopularRaw inp ∧ v.id ∉ shortsAllSeenIds inp) := by
  simp only [getXraiShortsCore] at h
  split at h
  · rcases backfillGo_mem _ _ _ v h with h1 | h2
    · exact Or.inl h1
    · have h3 := List.take_subset 10 _ h2
      have h4 := List.mem_filter.mp h3
      refine Or.inr ⟨h4.1, ?_⟩
      exact (contains_false_iff _ _).mp (by simpa using h4.2)
  · exact Or.inl h

/-! ### Full-feed pipeline membership lemmas -/

theorem recoVideos_mem (ek : String → List String)
    (shA shB shC shD shE shF : List Video → List Video)
    (hA : ∀ l, (shA l).Perm l) (hB : ∀ l, (shB l).Perm l)
    (hC : ∀ l, (shC l).Perm l) (inp : RecoInput) (v : Video)
    (h : v ∈ (getXraiRecommendationsCore ek shA shB shC shD shE shF inp).videos) :
    v ∈ cleanTrendingVideosOf ek inp ∨ v ∈ cleanPersonalizedVideosOf ek inp := by
  simp only [getXraiRecommendationsCore] at h
  have h1 := (hC _).mem_iff.mp h
  rcases List.mem_append.mp h1 with h2 | h2
  · exact Or.inl ((hA _).mem_iff.mp (List.take_subset _ _ h2))
  · exact Or.inr ((hB _).mem_iff.mp (List.take_subset _ _ h2))

theorem recoShorts_mem (ek : String → List String)
    (shA shB shC shD shE shF : List Video → List Video)
    (hD : ∀ l, (shD l).Perm l) (hE : ∀ l, (shE l).Perm l)
    (hF : ∀ l, (shF l).Perm l) (inp : RecoInput) (v : Video)
    (h : v ∈ (getXraiRecommendationsCore ek shA shB shC shD shE shF inp).shorts) :
    v ∈ cleanTrendingShortsOf ek inp ∨ v ∈ cleanPersonalizedShortsOf ek inp := by
  simp only [getXraiRecommendationsCore] at h
  have h1 := (hF _).mem_iff.mp (List.take_subset _ _ h)
  rcases List.mem_append.mp h1 with h2 | h2
  · exact Or.inl ((hD _).mem_iff.mp h2)
  · exact Or.inr ((hE _).mem_iff.mp h2)

theorem recoSeen_chain (ek : String → List String) (inp : RecoInput) (x : String)
    (h : x ∈ recoSeen0 inp) :
    x ∈ recoSeen1 ek inp ∧ x ∈ recoSeen2 ek inp ∧ x ∈ recoSeen3 ek inp := by
  have h1 : x ∈ recoSeen1 ek inp := fdSeen_mono _ _ _ _ _ _ _ h
  have h2 : x ∈ recoSeen2 ek inp := fdSeen_mono _ _ _ _ _ _ _ h1
  have h3 : x ∈ recoSeen3 ek inp := fdSeen_mono _ _ _ _ _ _ _ h2
  exact ⟨h1, h2, h3⟩

theorem cleanTrendingPersonalized_disjoint (ek : String → List String)
    (inp : RecoInput) (v : Video) (h1 : v ∈ cleanTrendingVideosOf ek inp)
    (h2 : v ∈ cleanPersonalizedVideosOf ek inp) : False := by
  have hs : v.id ∈ recoSeen1 ek inp := fd_out_seen _ _ _ _ _ _ _ h1
  exact (fd_mem _ _ _ _ _ _ _ h2).2.1 hs

/-! ### Claim theorems -/

/-- C3: in the sequence admitted by the Diversity Enforcer of
`getXraiShorts` (cooldown constant 3, before any backfill), no channel
identifier occurs twice within any window of 3 consecutive admitted items,
and two admitted items from the same channel are always separated by at
least 3 other admitted items (positions at least 4 apart). -/
theorem c3_diversity_window :
    (∀ (items : List (Video × ℚ)) (i j : ℕ) (u v : Video),
        (diversityEnforce (fun _ => 0) items)[i]? = some u →
        (diversityEnforce (fun _ => 0) items)[j]? = some v →
        i < j → j < i + 3 → u.channelId ≠ v.channelId)
    ∧ (∀ (items : List (Video × ℚ)) (i j : ℕ) (u v : Video),
        (diversityEnforce (fun _ => 0) items)[i]? = some u →
        (diversityEnforce (fun _ => 0) items)[j]? = some v →
        i < j → u.channelId = v.channelId → i + 4 ≤ j) := by
  constructor
  · intro items i j u v hu hv hij hwin hch
    have := dE_separation items _ i j u v hij hu hv hch
    omega
  · intro items i j u v hu hv hij hch
    exact dE_separation items _ i j u v hij hu hv hch

theorem c3_diversity_window_witness : (0 : ℕ) + 4 ≤ 4 :=
  c3_diversity_window.2 c3Items 0 4
    ⟨"i1", "t", "A", "n", "", ""⟩ ⟨"i5", "t", "A", "n", "", ""⟩
    (by decide) (by decide) (by decide) (by decide)

/-- C9: the per-candidate scoring function of `getXraiShorts` is
deterministic modulo its noise term: for a fixed video, profile vector,
magnitude, subscription set and negative-keyword table, subtracting the
noise contribution (`rand * 15`) yields the same score for any two noise
draws — in particular two evaluations with the noise contribution fixed to
`0` yield identical scores. -/
theorem c9_score_determinism (ek : String → List String)
    (userVector : String → ℚ) (userMag : ℚ) (subs : List Channel)
    (negKW : String → ℚ) (sqrtF : ℕ → ℚ) (r1 r2 : ℚ) (v : Video) :
    scoreVideo ek userVector userMag subs negKW sqrtF r1 v - r1 * 15
      = scoreVideo ek userVector userMag subs negKW sqrtF r2 v - r2 * 15 := by
  simp only [scoreVideo]
  ring

/-- C10: every video returned by `getXraiShorts` is short-form in the
classifier's sense (`isShortVideo`): both the scored candidates and the
backfilled trending items come from pools pre-filtered through
`isShortVideo`. -/
theorem c10_output_short_form (ek : String → List String) (dec : ℕ → ℚ)
    (magF : (String → ℚ) → ℚ) (sqrtF : ℕ → ℚ) (noiseF : Video → ℚ)
    (inp : ShortsInput) (v : Video)
    (h : v ∈ getXraiShortsCore ek dec magF sqrtF noiseF inp) :
    isShortVideo v = true := by
  rcases shortsCore_mem ek dec magF sqrtF noiseF inp v h with h1 | h2
  · have h3 := shortsAdmitted_mem ek dec magF sqrtF noiseF inp v h1
    exact shortsCandidates_short inp v (hfd_mem _ _ _ _ _ _ h3).1
  · exact (List.mem_filter.mp h2.1).2

theorem c10_output_short_form_witness : isShortVideo plainShort = true :=
  c10_output_short_form ek0 dec0 mag0 sqrt0 noise0 plainShortsInput plainShort
    (by with_unfolding_all decide)

/-- C2: a candidate whose identifier is in the caller's seen-set (the
`hiddenVideos` identifiers for the full feed; the `hiddenVideos`
identifiers or the extra `seenIds` parameter for the shorts variant) never
appears in any returned list, including items appended by the trending
backfill path. -/
theorem c2_seen_exclusion :
    (∀ (ek : String → List String) (shA shB shC shD shE shF : List Video → List Video),
        (∀ l, (shA l).Perm l) → (∀ l, (shB l).Perm l) → (∀ l, (shC l).Perm l) →
        (∀ l, (shD l).Perm l) → (∀ l, (shE l).Perm l) → (∀ l, (shF l).Perm l) →
        ∀ (inp : RecoInput) (v : Video),
          v.id ∈ inp.hiddenVideos.map HiddenVideo.id →
          v ∉ (getXraiRecommendationsCore ek shA shB shC shD shE shF inp).videos
            ∧ v ∉ (getXraiRecommendationsCore ek shA shB shC shD shE shF inp).shorts)
    ∧ (∀ (ek : String → List String) (dec : ℕ → ℚ) (magF : (String → ℚ) → ℚ)
        (sqrtF : ℕ → ℚ) (noiseF : Video → ℚ) (inp : ShortsInput) (v : Video),
          v.id ∈ inp.hiddenVideos.map HiddenVideo.id ∨ v.id ∈ inp.seenIds →
          v ∉ getXraiShortsCore ek dec magF sqrtF noiseF inp) := by
  constructor
  · intro ek shA shB shC shD shE shF hA hB hC hD hE hF inp v hid
    have hid0 : v.id ∈ recoSeen0 inp := hid
    obtain ⟨h1, h2, h3⟩ := recoSeen_chain ek inp v.id hid0
    constructor
    · intro hmem
      rcases recoVideos_mem ek shA shB shC shD shE shF hA hB hC inp v hmem with hp | hp
      · exact (fd_mem _ _ _ _ _ _ _ hp).2.1 hid0
      · exact (fd_mem _ _ _ _ _ _ _ hp).2.1 h1
    · intro hmem
      rcases recoShorts_mem ek shA shB shC shD shE shF hD hE hF inp v hmem with hp | hp
      · exact (fd_mem _ _ _ _ _ _ _ hp).2.1 h2
      · exact (fd_mem _ _ _ _ _ _ _ hp).2.1 h3
  · intro ek dec magF sqrtF noiseF inp v hid hmem
    have hseen : v.id ∈ shortsAllSeenIds inp := by
      rcases hid with h | h
      · exact List.mem_append_left _ (List.mem_append_right _ h)
      · exact List.mem_append_right _ h
    rcases shortsCore_mem ek dec magF sqrtF noiseF inp v hmem with h1 | h2
    · exact (hfd_mem _ _ _ _ _ _ (shortsAdmitted_mem ek dec magF sqrtF noiseF inp v h1)).2.1 hseen
    · exact h2.2 hseen

theorem c2_seen_exclusion_witness :
    hiddenVid ∉ getXraiShortsCore ek0 dec0 mag0 sqrt0 noise0 c2Input
      ∧ hiddenVid ∉ (getXraiRecommendationsCore ek0 id id id id id id c2RecoInput).videos :=
  ⟨c2_seen_exclusion.2 ek0 dec0 mag0 sqrt0 noise0 c2Input hiddenVid (Or.inl (by with_unfolding_all decide)),
   (c2_seen_exclusion.1 ek0 id id id id id id
      (fun l => List.Perm.refl l) (fun l => List.Perm.refl l) (fun l => List.Perm.refl l)
      (fun l => List.Perm.refl l) (fun l => List.Perm.refl l) (fun l => List.Perm.refl l)
      c2RecoInput hiddenVid (by with_unfolding_all decide)).1⟩

/-- C1 counterexample: with NG keyword `"bad"` and a single NG-matching
trending short, the shorts backfill path appends the NG-matching candidate
to the returned feed — the claim's exclusion does not extend to the
trending backfill path. -/
theorem c1_counterexample :
    ngHit c1Input.ngKeywords badVid = true
      ∧ badVid ∈ getXraiShortsCore ek0 dec0 mag0 sqrt0 noise0 c1Input :=
  ⟨by with_unfolding_all decide, by with_unfolding_all decide⟩

/-- C1 (amended): a candidate hit by an NG keyword (case-insensitive
substring of `title + channelName`) never appears in either list returned
by `getXraiRecommendations` and is never admitted by the scored path of
`getXraiShorts`; however, the shorts trending backfill does not re-check NG
keywords, so an NG-matching video in the returned shorts feed can only be
a raw trending short that was not already seen. -/
theorem c1_ng_exclusion_amended :
    (∀ (ek : String → List String) (shA shB shC shD shE shF : List Video → List Video),
        (∀ l, (shA l).Perm l) → (∀ l, (shB l).Perm l) → (∀ l, (shC l).Perm l) →
        (∀ l, (shD l).Perm l) → (∀ l, (shE l).Perm l) → (∀ l, (shF l).Perm l) →
        ∀ (inp : RecoInput) (v : Video), ngHit inp.ngKeywords v = true →
          v ∉ (getXraiRecommendationsCore ek shA shB shC shD shE shF inp).videos
            ∧ v ∉ (getXraiRecommendationsCore ek shA shB shC shD shE shF inp).shorts)
    ∧ (∀ (ek : String → List String) (dec : ℕ → ℚ) (magF : (String → ℚ) → ℚ)
        (sqrtF : ℕ → ℚ) (noiseF : Video → ℚ) (inp : ShortsInput) (v : Video),
          ngHit inp.ngKeywords v = true →
          v ∉ shortsAdmitted ek dec magF sqrtF noiseF inp
            ∧ (v ∈ getXraiShortsCore ek dec magF sqrtF noiseF inp →
                v ∈ shortsPopularRaw inp ∧ v.id ∉ shortsAllSeenIds inp)) := by
  constructor
  · intro ek shA shB shC shD shE shF hA hB hC hD hE hF inp v hng
    constructor
    · intro hmem
      rcases recoVideos_mem ek shA shB shC shD shE shF hA hB hC inp v hmem with hp | hp
        <;> exact absurd (fd_mem _ _ _ _ _ _ _ hp).2.2.1 (by rw [hng]; simp)
    · intro hmem
      rcases recoShorts_mem ek shA shB shC shD shE shF hD hE hF inp v hmem with hp | hp
        <;> exact absurd (fd_mem _ _ _ _ _ _ _ hp).2.2.1 (by rw [hng]; simp)
  · intro ek dec magF sqrtF noiseF inp v hng
    constructor
    · intro hadm
      exact absurd (hfd_mem _ _ _ _ _ _ (shortsAdmitted_mem ek dec magF sqrtF noiseF inp v hadm)).2.2.2.1
        (by rw [hng]; simp)
    · intro hmem
      rcases shortsCore_mem ek dec magF sqrtF noiseF inp v hmem with h1 | h2
      · exact absurd (hfd_mem _ _ _ _ _ _ (shortsAdmitted_mem ek dec magF sqrtF noiseF inp v h1)).2.2.2.1
          (by rw [hng]; simp)
      · exact h2

theorem c1_ng_exclusion_witness :
    badVid ∉ shortsAdmitted ek0 dec0 mag0 sqrt0 noise0 c1Input :=
  (c1_ng_exclusion_amended.2 ek0 dec0 mag0 sqrt0 noise0 c1Input badVid
    (by with_unfolding_all decide)).1

theorem shortsAdmitted_ids_nodup (ek : String → List String) (dec : ℕ → ℚ)
    (magF : (String → ℚ) → ℚ) (sqrtF : ℕ → ℚ) (noiseF : Video → ℚ)
    (inp : ShortsInput) :
    ((shortsAdmitted ek dec magF sqrtF noiseF inp).map Video.id).Nodup := by
  simp only [shortsAdmitted]
  refine List.Nodup.sublist
    (List.Sublist.map Video.id (diversityEnforce_sublist _ _)) ?_
  rw [List.Perm.nodup_iff (((sortByScoreDesc_perm _).map Prod.fst).map Video.id)]
  rw [List.map_map, List.map_map]
  exact hfd_nodup _ _ _ _ _

/-- C8 counterexample: when the channel of every candidate is blocked, the
admitted feed is empty and the trending pool holds six eligible shorts; the
code backfills all six — it does not stop once the floor of 5 is met. -/
theorem c8_counterexample :
    (shortsAdmitted ek0 dec0 mag0 sqrt0 noise0 c8Input).length = 0
      ∧ 0 < (shortsPopularRaw c8Input).length
      ∧ (getXraiShortsCore ek0 dec0 mag0 sqrt0 noise0 c8Input).length = 6 :=
  ⟨by with_unfolding_all decide, by with_unfolding_all decide,
   by with_unfolding_all decide⟩

/-- C8 (amended): when the diversity-admitted result has fewer than 5 items
and the trending shorts pool is non-empty, the engine backfills from the
trending pool excluding already-seen identifiers, appending up to 10 such
items (a fixed cap of 10 — it does not stop when the floor of 5 is
reached), and the resulting feed contains no duplicate identifiers. -/
theorem c8_backfill_amended (ek : String → List String) (dec : ℕ → ℚ)
    (magF : (String → ℚ) → ℚ) (sqrtF : ℕ → ℚ) (noiseF : Video → ℚ)
    (inp : ShortsInput)
    (h5 : (shortsAdmitted ek dec magF sqrtF noiseF inp).length < 5)
    (hpool : 0 < (shortsPopularRaw inp).length) :
    ∃ extra, getXraiShortsCore ek dec magF sqrtF noiseF inp
        = shortsAdmitted ek dec magF sqrtF noiseF inp ++ extra
      ∧ (∀ v ∈ extra, v ∈ shortsPopularRaw inp ∧ v.id ∉ shortsAllSeenIds inp)
      ∧ extra.length ≤ 10
      ∧ idsNodup (getXraiShortsCore ek dec magF sqrtF noiseF inp) := by
  have hout : getXraiShortsCore ek dec magF sqrtF noiseF inp
      = backfillGo (shortsAdmitted ek dec magF sqrtF noiseF inp)
          ((shortsAdmitted ek dec magF sqrtF noiseF inp).map Video.id)
          (((shortsPopularRaw inp).filter
              (fun v => !(shortsAllSeenIds inp).contains v.id)).take 10) := by
    simp only [getXraiShortsCore]
    rw [if_pos ⟨h5, hpool⟩]
  obtain ⟨extra, he, hm, hn, hl⟩ := backfillGo_spec
    (((shortsPopularRaw inp).filter
        (fun v => !(shortsAllSeenIds inp).contains v.id)).take 10)
    (shortsAdmitted ek dec magF sqrtF noiseF inp)
    ((shortsAdmitted ek dec magF sqrtF noiseF inp).map Video.id)
    (fun x hx => List.mem_map_of_mem Video.id hx)
    (shortsAdmitted_ids_nodup ek dec magF sqrtF noiseF inp)
  refine ⟨extra, by rw [hout, he], ?_, ?_, ?_⟩
  · intro v hv
    have h1 := List.mem_filter.mp (List.take_subset _ _ (hm v hv))
    exact ⟨h1.1, (contains_false_iff _ _).mp (by simpa using h1.2)⟩
  · calc extra.length
        ≤ (((shortsPopularRaw inp).filter
            (fun v => !(shortsAllSeenIds inp).contains v.id)).take 10).length := hl
      _ ≤ 10 := by rw [List.length_take]; omega
  · rw [hout, he]
    exact hn

theorem c8_backfill_amended_witness :
    idsNodup (getXraiShortsCore ek0 dec0 mag0 sqrt0 noise0 c8Input) := by
  obtain ⟨extra, -, -, -, hn⟩ := c8_backfill_amended ek0 dec0 mag0 sqrt0 noise0 c8Input
    (by with_unfolding_all decide) (by with_unfolding_all decide)
  exact hn

theorem numTrending_eq : numTrending = 20 := by with_unfolding_all decide

theorem numPersonalized_eq : numPersonalized = 30 := by with_unfolding_all decide

/-- C5: whenever at least 50 long-form trending candidates and at least 75
long-form personalized candidates survive filtering, the `videos` list of
`getXraiRecommendations` (target 50, trending ratio 0.40) consists of
exactly 20 items drawn from the filtered trending pool and exactly 30 items
drawn from the filtered personalized pool, for every choice of the
shuffles — shuffling affects only the order. -/
theorem c5_mixer_composition (ek : String → List String)
    (shA shB shC shD shE shF : List Video → List Video)
    (hA : ∀ l, (shA l).Perm l) (hB : ∀ l, (shB l).Perm l)
    (hC : ∀ l, (shC l).Perm l) (inp : RecoInput)
    (hT : 50 ≤ (cleanTrendingVideosOf ek inp).length)
    (hP : 75 ≤ (cleanPersonalizedVideosOf ek inp).length) :
    (getXraiRecommendationsCore ek shA shB shC shD shE shF inp).videos.length = 50
      ∧ (getXraiRecommendationsCore ek shA shB shC shD shE shF inp).videos.countP
          (fun v => decide (v ∈ cleanTrendingVideosOf ek inp)) = 20
      ∧ (getXraiRecommendationsCore ek shA shB shC shD shE shF inp).videos.countP
          (fun v => decide (v ∈ cleanPersonalizedVideosOf ek inp)) = 30 := by
  have hlenA : ((shA (cleanTrendingVideosOf ek inp)).take numTrending).length = 20 := by
    rw [List.length_take, (hA _).length_eq, numTrending_eq]
    omega
  have hlenB : ((shB (cleanPersonalizedVideosOf ek inp)).take numPersonalized).length = 30 := by
    rw [List.length_take, (hB _).length_eq, numPersonalized_eq]
    omega
  have hsubA : ∀ v ∈ (shA (cleanTrendingVideosOf ek inp)).take numTrending,
      v ∈ cleanTrendingVideosOf ek inp :=
    fun v hv => (hA _).mem_iff.mp (List.take_subset _ _ hv)
  have hsubB : ∀ v ∈ (shB (cleanPersonalizedVideosOf ek inp)).take numPersonalized,
      v ∈ cleanPersonalizedVideosOf ek inp :=
    fun v hv => (hB _).mem_iff.mp (List.take_subset _ _ hv)
  simp only [getXraiRecommendationsCore]
  refine ⟨?_, ?_, ?_⟩
  · rw [(hC _).length_eq, List.length_append, hlenA, hlenB]
  · rw [List.Perm.countP_eq _ (hC _), List.countP_append]
    have h1 : List.countP (fun v => decide (v ∈ cleanTrendingVideosOf ek inp))
        ((shA (cleanTrendingVideosOf ek inp)).take numTrending) = 20 := by
      rw [← hlenA]
      exact List.countP_eq_length.mpr (fun a ha => by simp [hsubA a ha])
    have h2 : List.countP (fun v => decide (v ∈ cleanTrendingVideosOf ek inp))
        ((shB (cleanPersonalizedVideosOf ek inp)).take numPersonalized) = 0 :=
      List.countP_eq_zero.mpr (fun a ha hc => by
        exact cleanTrendingPersonalized_disjoint ek inp a (by simpa using hc) (hsubB a ha))
    rw [h1, h2]
  · rw [List.Perm.countP_eq _ (hC _), List.countP_append]
    have h1 : List.countP (fun v => decide (v ∈ cleanPersonalizedVideosOf ek inp))
        ((shA (cleanTrendingVideosOf ek inp)).take numTrending) = 0 :=
      List.countP_eq_zero.mpr (fun a ha hc => by
        exact cleanTrendingPersonalized_disjoint ek inp a (hsubA a ha) (by simpa using hc))
    have h2 : List.countP (fun v => decide (v ∈ cleanPersonalizedVideosOf ek inp))
        ((shB (cleanPersonalizedVideosOf ek inp)).take numPersonalized) = 30 := by
      rw [← hlenB]
      exact List.countP_eq_length.mpr (fun a ha => by simp [hsubB a ha])
    rw [h1, h2]

set_option maxRecDepth 10000 in
theorem c5_mixer_composition_witness :
    (getXraiRecommendationsCore ek0 id id id id id id c5Input).videos.length = 50
      ∧ (getXraiRecommendationsCore ek0 id id id id id id c5Input).videos.countP
          (fun v => decide (v ∈ cleanTrendingVideosOf ek0 c5Input)) = 20 := by
  obtain ⟨h1, h2, -⟩ := c5_mixer_composition ek0 id id id id id id
    (fun l => List.Perm.refl l) (fun l => List.Perm.refl l) (fun l => List.Perm.refl l)
    c5Input (by with_unfolding_all decide) (by with_unfolding_all decide)
  exact ⟨h1, h2⟩

/-- C4 counterexample: when the trending fetch and every search fetch fail,
`getXraiRecommendations` resolves successfully with an empty feed — and the
deep-analysis variant resolves successfully with an empty list — rather
than surfacing a "recommendations unavailable" failure: every per-source
`catch` recovers to an empty pool and no error path remains. -/
theorem c4_counterexample :
    getXraiRecommendationsRun ek0 id id id id id id [] [] [] negKW0
        (Except.error "trending failed")
        [Except.error "search 1 failed", Except.error "search 2 failed"]
      = Except.ok ⟨[], []⟩
    ∧ getDeeplyAnalyzedRecommendationsRun id [] [] []
        [Except.error "all sources failed"] = Except.ok [] :=
  ⟨by with_unfolding_all rfl, by with_unfolding_all rfl⟩

/-- C4 (amended): when every upstream fetch fails, the engine does not
surface any failure: each per-source failure is recovered to an empty pool
and the operation resolves successfully with an empty result (an empty
feed for `getXraiRecommendations`, an empty list for
`getDeeplyAnalyzedRecommendations`). -/
theorem c4_total_failure_amended (ek : String → List String)
    (shA shB shC shD shE shF : List Video → List Video)
    (hA : ∀ l, (shA l).Perm l) (hB : ∀ l, (shB l).Perm l)
    (hC : ∀ l, (shC l).Perm l) (hD : ∀ l, (shD l).Perm l)
    (hE : ∀ l, (shE l).Perm l) (hF : ∀ l, (shF l).Perm l)
    (ngK : List String) (ngC : List BlockedChannel) (hid : List HiddenVideo)
    (negKW : String → ℚ) (trendingRes : Except String (List Video))
    (searchRes : List (Except String SearchResult))
    (dsh : List Video → List Video) (hdsh : ∀ l, (dsh l).Perm l)
    (wh : List Video) (dngK dngC : List String)
    (dresults : List (Except String (List Video)))
    (htr : ∃ m, trendingRes = Except.error m)
    (hsr : ∀ r ∈ searchRes, ∃ m, r = Except.error m)
    (hdr : ∀ r ∈ dresults, ∃ m, r = Except.error m) :
    getXraiRecommendationsRun ek shA shB shC shD shE shF ngK ngC hid negKW
        trendingRes searchRes = Except.ok ⟨[], []⟩
      ∧ getDeeplyAnalyzedRecommendationsRun dsh wh dngK dngC dresults
        = Except.ok [] := by
  constructor
  · obtain ⟨m, rfl⟩ := htr
    simp only [getXraiRecommendationsRun]
    rw [show recover (Except.error m) ([] : List Video) = [] from rfl]
    have hempty : ∀ r ∈ searchRes.map (fun r => recover r ⟨[], []⟩),
        r = (⟨[], []⟩ : SearchResult) := by
      intro r hr
      rcases List.mem_map.mp hr with ⟨e, he, rfl⟩
      obtain ⟨m2, rfl⟩ := hsr e he
      rfl
    have hflatv : (searchRes.map (fun r => recover r ⟨[], []⟩)).flatMap
        SearchResult.videos = [] := by
      rw [List.flatMap_eq_nil_iff]
      intro x hx
      rw [hempty x hx]
    have hflats : (searchRes.map (fun r => recover r ⟨[], []⟩)).flatMap
        SearchResult.shorts = [] := by
      rw [List.flatMap_eq_nil_iff]
      intro x hx
      rw [hempty x hx]
    have hct : cleanTrendingVideosOf ek
        ⟨ngK, ngC, hid, negKW, [], searchRes.map (fun r => recover r ⟨[], []⟩)⟩ = [] := by
      simp [cleanTrendingVideosOf, allTrendingVideosOf, filterAndDedupe]
    have hcp : cleanPersonalizedVideosOf ek
        ⟨ngK, ngC, hid, negKW, [], searchRes.map (fun r => recover r ⟨[], []⟩)⟩ = [] := by
      simp [cleanPersonalizedVideosOf, allPersonalizedVideosOf,
        personalizedVideosFromSearchOf, hflatv, filterAndDedupe]
    have hcts : cleanTrendingShortsOf ek
        ⟨ngK, ngC, hid, negKW, [], searchRes.map (fun r => recover r ⟨[], []⟩)⟩ = [] := by
      simp [cleanTrendingShortsOf, allTrendingShortsOf, filterAndDedupe]
    have hcps : cleanPersonalizedShortsOf ek
        ⟨ngK, ngC, hid, negKW, [], searchRes.map (fun r => recover r ⟨[], []⟩)⟩ = [] := by
      simp [cleanPersonalizedShortsOf, allPersonalizedShortsOf,
        personalizedVideosFromSearchOf, hflatv, hflats, filterAndDedupe]
    simp only [getXraiRecommendationsCore]
    rw [hct, hcp, hcts, hcps, (hA []).eq_nil, (hB []).eq_nil, List.take_nil,
      List.take_nil, List.append_nil, (hC []).eq_nil, (hD []).eq_nil,
      (hE []).eq_nil, List.append_nil, (hF []).eq_nil, List.take_nil]
  · have hempty : ∀ r ∈ dresults.map (fun r => recover r []),
        r = ([] : List Video) := by
      intro r hr
      rcases List.mem_map.mp hr with ⟨e, he, rfl⟩
      obtain ⟨m2, rfl⟩ := hdr e he
      rfl
    simp only [getDeeplyAnalyzedRecommendationsRun]
    have hflat : (dresults.map (fun r => recover r [])).flatten = [] :=
      List.flatten_eq_nil_iff.mpr hempty
    rw [hflat, (hdsh []).eq_nil]
    rfl

theorem c4_total_failure_amended_witness :
    getXraiRecommendationsRun ek0 id id id id id id [] [] [] negKW0
        (Except.error "boom") [Except.error "boom 2"] = Except.ok ⟨[], []⟩ := by
  obtain ⟨h, -⟩ := c4_total_failure_amended ek0 id id id id id id
    (fun l => List.Perm.refl l) (fun l => List.Perm.refl l) (fun l => List.Perm.refl l)
    (fun l => List.Perm.refl l) (fun l => List.Perm.refl l) (fun l => List.Perm.refl l)
    [] [] [] negKW0 (Except.error "boom") [Except.error "boom 2"]
    id (fun l => List.Perm.refl l) [] [] [] [Except.error "boom 3"]
    ⟨"boom", rfl⟩
    (by intro r hr; rw [List.mem_singleton.mp hr]; exact ⟨"boom 2", rfl⟩)
    (by intro r hr; rw [List.mem_singleton.mp hr]; exact ⟨"boom 3", rfl⟩)
  exact h

/-! ### User-profile builder lemmas -/

theorem addWeight_apply (ek : String → List String) (m : String → ℚ)
    (text : String) (w : ℚ) (t : String) :
    addWeight ek m text w t = m t + w * ((ek text).count t : ℚ) := by
  unfold addWeight
  suffices h : ∀ (l : List String) (m0 : String → ℚ),
      (l.foldl (fun acc k => fun s => if s = k then acc s + w else acc s) m0) t
        = m0 t + w * (l.count t : ℚ) by
    exact h (ek text) m
  intro l
  induction l with
  | nil => intro m0; simp
  | cons k ks ih =>
    intro m0
    rw [List.foldl_cons, ih, List.count_cons]
    by_cases hk : t = k
    · subst hk
      simp
      ring
    · have hbe : (k == t) = false := beq_eq_false_iff_ne.mpr (Ne.symm hk)
      simp [hk, hbe]

theorem foldl_weight_general {α : Type} (g : (String → ℚ) → α → (String → ℚ))
    (contrib : α → ℚ) (t : String)
    (hg : ∀ m c, g m c t = m t + contrib c) :
    ∀ (l : List α) (m0 : String → ℚ),
      (l.foldl g m0) t = m0 t + (l.map contrib).sum := by
  intro l
  induction l with
  | nil => intro m0; simp
  | cons c cs ih =>
    intro m0
    rw [List.foldl_cons, ih, hg, List.map_cons, List.sum_cons, add_assoc]

theorem buildStage1_apply (ek : String → List String) (subs : List Channel)
    (t : String) :
    buildStage1 ek subs t
      = (subs.map (fun c => 5 * ((ek c.name).count t : ℚ))).sum := by
  unfold buildStage1
  rw [foldl_weight_general
    (fun (m : String → ℚ) (c : Channel) => addWeight ek m c.name 5)
    (fun c => 5 * ((ek c.name).count t : ℚ)) t
    (fun m c => addWeight_apply ek m c.name 5 t) subs (fun _ => 0)]
  simp

theorem buildStage2_apply (ek : String → List String) (dec : ℕ → ℚ)
    (sh : List Video) (m0 : String → ℚ) (t : String) :
    buildStage2 ek dec sh m0 t
      = m0 t + ((sh.take 30).enum.map (fun p =>
          3 * dec p.1 * ((ek p.2.title).count t : ℚ)
            + 4 * dec p.1 * ((ek p.2.channelName).count t : ℚ))).sum := by
  unfold buildStage2
  rw [foldl_weight_general
    (fun (m : String → ℚ) (p : ℕ × Video) =>
      addWeight ek (addWeight ek m p.2.title (3 * dec p.1)) p.2.channelName (4 * dec p.1))
    (fun p : ℕ × Video => 3 * dec p.1 * ((ek p.2.title).count t : ℚ)
      + 4 * dec p.1 * ((ek p.2.channelName).count t : ℚ)) t
    (fun m p => by simp only [addWeight_apply]; ring)
    (sh.take 30).enum m0]

theorem buildStage3_apply (ek : String → List String) (dec : ℕ → ℚ)
    (wh : List Video) (m0 : String → ℚ) (t : String) :
    buildStage3 ek dec wh m0 t
      = m0 t + ((wh.take 20).enum.map (fun p =>
          3 / 2 * dec p.1 * ((ek p.2.title).count t : ℚ)
            + 2 * dec p.1 * ((ek p.2.channelName).count t : ℚ))).sum := by
  unfold buildStage3
  rw [foldl_weight_general
    (fun (m : String → ℚ) (p : ℕ × Video) =>
      addWeight ek (addWeight ek m p.2.title (3 / 2 * dec p.1)) p.2.channelName (2 * dec p.1))
    (fun p : ℕ × Video => 3 / 2 * dec p.1 * ((ek p.2.title).count t : ℚ)
      + 2 * dec p.1 * ((ek p.2.channelName).count t : ℚ)) t
    (fun m p => by simp only [addWeight_apply]; ring)
    (wh.take 20).enum m0]

/-- C7: the user profile of `getXraiShorts` accumulates exactly weight 5
per subscribed-channel-name keyword occurrence, `3·exp(-i/10)` (title) and
`4·exp(-i/10)` (channel name) for the first 30 shorts-history entries,
`1.5·exp(-i/10)` and `2·exp(-i/10)` for the first 20 watch-history entries
(`dec` models `Math.exp (-i/10)`), and, when the decay values are
non-negative, weights only accumulate from stage to stage — they never
decrease during construction. -/
theorem c7_profile_weights (ek : String → List String) (dec : ℕ → ℚ)
    (subs : List Channel) (shortsHistory watchHistory : List Video)
    (hdec : ∀ i, 0 ≤ dec i) (t : String) :
    buildUserVector ek dec subs shortsHistory watchHistory t
      = (subs.map (fun c => 5 * ((ek c.name).count t : ℚ))).sum
        + ((shortsHistory.take 30).enum.map (fun p =>
            3 * dec p.1 * ((ek p.2.title).count t : ℚ)
              + 4 * dec p.1 * ((ek p.2.channelName).count t : ℚ))).sum
        + ((watchHistory.take 20).enum.map (fun p =>
            3 / 2 * dec p.1 * ((ek p.2.title).count t : ℚ)
              + 2 * dec p.1 * ((ek p.2.channelName).count t : ℚ))).sum
      ∧ 0 ≤ buildStage1 ek subs t
      ∧ buildStage1 ek subs t
          ≤ buildStage2 ek dec shortsHistory (buildStage1 ek subs) t
      ∧ buildStage2 ek dec shortsHistory (buildStage1 ek subs) t
          ≤ buildStage3 ek dec watchHistory
              (buildStage2 ek dec shortsHistory (buildStage1 ek subs)) t := by
  have hsum2 : 0 ≤ ((shortsHistory.take 30).enum.map (fun p =>
      3 * dec p.1 * ((ek p.2.title).count t : ℚ)
        + 4 * dec p.1 * ((ek p.2.channelName).count t : ℚ))).sum := by
    apply List.sum_nonneg
    intro x hx
    rcases List.mem_map.mp hx with ⟨p, -, rfl⟩
    have h1 := hdec p.1
    positivity
  have hsum3 : 0 ≤ ((watchHistory.take 20).enum.map (fun p =>
      3 / 2 * dec p.1 * ((ek p.2.title).count t : ℚ)
        + 2 * dec p.1 * ((ek p.2.channelName).count t : ℚ))).sum := by
    apply List.sum_nonneg
    intro x hx
    rcases List.mem_map.mp hx with ⟨p, -, rfl⟩
    have h1 := hdec p.1
    positivity
  refine ⟨?_, ?_, ?_, ?_⟩
  · unfold buildUserVector
    rw [buildStage3_apply, buildStage2_apply, buildStage1_apply]
  · rw [buildStage1_apply]
    apply List.sum_nonneg
    intro x hx
    rcases List.mem_map.mp hx with ⟨c, -, rfl⟩
    positivity
  · rw [buildStage2_apply]
    linarith
  · rw [buildStage3_apply]
    linarith

theorem c7_profile_weights_witness :
    buildUserVector ek0 dec0 [] [] [] "rock" = 0
      ∧ 0 ≤ buildStage1 ek0 [] "rock" := by
  obtain ⟨h1, h2, -, -⟩ := c7_profile_weights ek0 dec0 [] [] []
    (fun i => le_refl 0) "rock"
  exact ⟨by simpa using h1, h2⟩

/-! ### Duration parser lemmas -/

theorem digit_not_whitespace (c : Char) (h : c.isDigit = true) :
    c.isWhitespace = false := by
  revert h
  simp [Char.isWhitespace, Char.isDigit]
  intro h1 h2
  refine ⟨⟨⟨?_, ?_⟩, ?_⟩, ?_⟩ <;> rintro rfl <;> simp_all

theorem jsParseIntL_digits (p : List Char) (hne : p ≠ [])
    (hd : ∀ c ∈ p, c.isDigit = true) :
    jsParseIntL p = some ((digitsVal p : ℕ) : ℤ) := by
  obtain ⟨c, cs, rfl⟩ := List.exists_cons_of_ne_nil hne
  have hc : c.isDigit = true := hd c (List.mem_cons_self _ _)
  have hw : c.isWhitespace = false := digit_not_whitespace c hc
  have hminus : c ≠ '-' := by rintro rfl; exact absurd hc (by decide)
  have hplus : c ≠ '+' := by rintro rfl; exact absurd hc (by decide)
  simp only [jsParseIntL]
  rw [List.dropWhile_cons, if_neg (by simp [hw])]
  split
  · rename_i rest heq
    obtain ⟨h1, -⟩ := List.cons.inj heq
    exact absurd h1 hminus
  · rename_i rest heq
    obtain ⟨h1, -⟩ := List.cons.inj heq
    exact absurd h1 hplus
  · have htake : (c :: cs).takeWhile Char.isDigit = c :: cs :=
      List.takeWhile_eq_self_iff.mpr hd
    simp only [digitsOpt, htake]
    simp

/-- C6 counterexample: on the unparseable text form `"abc"` the duration
parser propagates `parseInt`'s `NaN` (modelled `none`) out of the
single-token branch instead of returning `0`, so its result is neither a
non-negative integer nor `0`. -/
theorem c6_counterexample : parseDuration "" "abc" = none := by decide

/-- C6 (amended): the three concrete values hold, and the parser returns a
non-negative integer number of seconds for every input pair whose text form
is empty, consists of one-to-three colon-separated all-digit tokens, or has
four or more tokens — but a 1-to-3-token text form containing a non-digit
token yields `NaN` (modelled `none`, e.g. `parseDuration "" "abc"`) rather
than `0`. -/
theorem c6_duration_amended :
    parseDuration "PT1H2M3S" "" = some 3723
      ∧ parseDuration "" "2:30" = some 150
      ∧ parseDuration "" "" = some 0
      ∧ ∀ iso text, textSafe text →
          ∃ n : ℕ, parseDuration iso text = some (n : ℤ) := by
  refine ⟨by decide, by decide, by decide, ?_⟩
  intro iso text hsafe
  unfold parseDuration
  cases hiso : (if iso = "" then none else parseIso iso) with
  | some n =>
    exact ⟨n, rfl⟩
  | none =>
    by_cases ht : text = ""
    · rw [if_pos ht]
      exact ⟨0, rfl⟩
    · rw [if_neg ht]
      rcases hsafe with h0 | h4 | hd
      · exact absurd h0 ht
      · rcases hps : splitCols text.toList with _ | ⟨a, _ | ⟨b, _ | ⟨c, _ | ds⟩⟩⟩
        · exact ⟨0, rfl⟩
        · rw [hps] at h4; simp at h4
        · rw [hps] at h4; simp at h4
        · rw [hps] at h4; simp at h4
        · simp only [List.map_cons]
          exact ⟨0, rfl⟩
      · rcases hps : splitCols text.toList with _ | ⟨a, _ | ⟨b, _ | ⟨c, _ | ds⟩⟩⟩
        · exact ⟨0, rfl⟩
        · simp only [List.map_cons, List.map_nil]
          have ha := hd a (by rw [hps]; exact List.mem_cons_self _ _)
          rw [jsParseIntL_digits a ha.1 ha.2]
          exact ⟨digitsVal a, rfl⟩
        · simp only [List.map_cons, List.map_nil]
          have ha := hd a (by rw [hps]; simp)
          have hb := hd b (by rw [hps]; simp)
          rw [jsParseIntL_digits a ha.1 ha.2, jsParseIntL_digits b hb.1 hb.2]
          refine ⟨digitsVal a * 60 + digitsVal b, ?_⟩
          simp
        · simp only [List.map_cons, List.map_nil]
          have ha := hd a (by rw [hps]; simp)
          have hb := hd b (by rw [hps]; simp)
          have hcc := hd c (by rw [hps]; simp)
          rw [jsParseIntL_digits a ha.1 ha.2, jsParseIntL_digits b hb.1 hb.2,
            jsParseIntL_digits c hcc.1 hcc.2]
          refine ⟨digitsVal a * 3600 + digitsVal b * 60 + digitsVal c, ?_⟩
          simp
        · simp only [List.map_cons]
          exact ⟨0, rfl⟩

theorem c6_duration_amended_witness :
    textSafe "2:30" ∧ ∃ n : ℕ, parseDuration "" "2:30" = some (n : ℤ) :=
  ⟨Or.inr (Or.inr (by with_unfolding_all decide)),
   c6_duration_amended.2.2.2 "" "2:30"
     (Or.inr (Or.inr (by with_unfolding_all decide)))⟩
